import Mathlib

/-!
Verification of the schema wrapper/resolver engine of `schemapi`
(`schemapi/traitlets.py`, class `JSONSchemaTraitlets`).

The Python code wraps one JSON Schema subtree together with its position in
the document and exposes classification queries (`is_trait`, `is_object`),
reference resolution (`get_reference`), attribute access with defaults
(`__getattr__` / `attr_defaults`), first-match extractor dispatch with
per-instance memoization (`trait_extractor`), and definition/import
aggregation (`wrapped_definitions`, `object_imports`).

The embedding below translates those methods into Lean functions over a
JSON value type.  Recursion through `$ref` targets and union branches can
diverge in Python (a `RecursionError`), so the recursive classifiers take a
fuel argument; `none` stands for "raises or exhausts recursion".
-/

namespace Schemapi

/-- JSON values: the nested mapping structure a schema document is made of.
Objects are association lists with (in well-formed documents) unique keys,
mirroring Python dicts. -/
inductive JSONValue : Type where
  | null : JSONValue
  | bool (b : Bool) : JSONValue
  | num (n : Int) : JSONValue
  | str (s : String) : JSONValue
  | arr (xs : List JSONValue) : JSONValue
  | obj (fields : List (String × JSONValue)) : JSONValue
deriving Repr

mutual

def JSONValue.decEq : (a b : JSONValue) → Decidable (a = b)
  | .null, .null => .isTrue rfl
  | .bool a, .bool b =>
    if h : a = b then .isTrue (by rw [h]) else .isFalse (fun hc => by cases hc; exact h rfl)
  | .num a, .num b =>
    if h : a = b then .isTrue (by rw [h]) else .isFalse (fun hc => by cases hc; exact h rfl)
  | .str a, .str b =>
    if h : a = b then .isTrue (by rw [h]) else .isFalse (fun hc => by cases hc; exact h rfl)
  | .arr xs, .arr ys =>
    match JSONValue.decEqList xs ys with
    | .isTrue h => .isTrue (by rw [h])
    | .isFalse h => .isFalse (fun hc => by cases hc; exact h rfl)
  | .obj fs, .obj gs =>
    match JSONValue.decEqFields fs gs with
    | .isTrue h => .isTrue (by rw [h])
    | .isFalse h => .isFalse (fun hc => by cases hc; exact h rfl)
  | .null, .bool _ | .null, .num _ | .null, .str _ | .null, .arr _ | .null, .obj _
  | .bool _, .null | .bool _, .num _ | .bool _, .str _ | .bool _, .arr _ | .bool _, .obj _
  | .num _, .null | .num _, .bool _ | .num _, .str _ | .num _, .arr _ | .num _, .obj _
  | .str _, .null | .str _, .bool _ | .str _, .num _ | .str _, .arr _ | .str _, .obj _
  | .arr _, .null | .arr _, .bool _ | .arr _, .num _ | .arr _, .str _ | .arr _, .obj _
  | .obj _, .null | .obj _, .bool _ | .obj _, .num _ | .obj _, .str _ | .obj _, .arr _ =>
    .isFalse (fun hc => by cases hc)

def JSONValue.decEqList : (xs ys : List JSONValue) → Decidable (xs = ys)
  | [], [] => .isTrue rfl
  | [], _ :: _ => .isFalse (fun hc => by cases hc)
  | _ :: _, [] => .isFalse (fun hc => by cases hc)
  | x :: xs, y :: ys =>
    match JSONValue.decEq x y with
    | .isTrue h1 =>
      match JSONValue.decEqList xs ys with
      | .isTrue h2 => .isTrue (by rw [h1, h2])
      | .isFalse h2 => .isFalse (fun hc => by cases hc; exact h2 rfl)
    | .isFalse h1 => .isFalse (fun hc => by cases hc; exact h1 rfl)

def JSONValue.decEqFields : (xs ys : List (String × JSONValue)) → Decidable (xs = ys)
  | [], [] => .isTrue rfl
  | [], _ :: _ => .isFalse (fun hc => by cases hc)
  | _ :: _, [] => .isFalse (fun hc => by cases hc)
  | (k1, v1) :: xs, (k2, v2) :: ys =>
    if hk : k1 = k2 then
      match JSONValue.decEq v1 v2 with
      | .isTrue h1 =>
        match JSONValue.decEqFields xs ys with
        | .isTrue h2 => .isTrue (by rw [hk, h1, h2])
        | .isFalse h2 => .isFalse (fun hc => by cases hc; exact h2 rfl)
      | .isFalse h1 => .isFalse (fun hc => by cases hc; exact h1 rfl)
    else .isFalse (fun hc => by cases hc; exact hk rfl)

end

instance : DecidableEq JSONValue := JSONValue.decEq

/-- First-match lookup of a key, Python `d[key]` / `d.get(key)` on a dict.
Returns `none` when the value is not an object or the key is absent. -/
def JSONValue.lookup : JSONValue → String → Option JSONValue
  | .obj fields, k => fields.lookup k
  | _, _ => none

/-- Python `key in d`: membership of a key in the node's mapping. -/
def JSONValue.hasKey (v : JSONValue) (k : String) : Bool :=
  (v.lookup k).isSome

/-- `tuple(self.schema.keys())`: the top-level keys of a schema mapping. -/
def JSONValue.topKeys : JSONValue → List String
  | .obj fields => fields.map Prod.fst
  | _ => []

/-- A schema node: a view of one subtree of the document
(`JSONSchemaTraitlets` together with its underlying schema object).
`schema` is the wrapped mapping, `rootSchema` the document of the root node
(reference resolution always walks from it), `name` the optional explicit
definition name, and `isRoot` models Python's identity test
`self.schemaobj.root is self.schemaobj`. -/
structure SchemaNode : Type where
  schema : JSONValue
  rootSchema : JSONValue
  name : Option String
  isRoot : Bool
deriving Repr, DecidableEq

instance {ε α : Type} [DecidableEq ε] [DecidableEq α] : DecidableEq (Except ε α) := fun a b =>
  match a, b with
  | .ok x, .ok y =>
    if h : x = y then .isTrue (by rw [h]) else .isFalse (fun hc => by cases hc; exact h rfl)
  | .error x, .error y =>
    if h : x = y then .isTrue (by rw [h]) else .isFalse (fun hc => by cases hc; exact h rfl)
  | .ok _, .error _ => .isFalse (fun hc => by cases hc)
  | .error _, .ok _ => .isFalse (fun hc => by cases hc)

/-- Python `name.lower()`, modelled character-wise so that the kernel can
evaluate it on concrete names. -/
def lowerName (s : String) : String :=
  (s.toList.map Char.toLower).asString

/-- Code-point lexicographic `≤` on character lists: Python's string
comparison, in a form the kernel can evaluate. -/
def charListLe : List Char → List Char → Bool
  | [], _ => true
  | _ :: _, [] => false
  | c :: cs, d :: ds =>
    if c < d then true
    else if d < c then false
    else charListLe cs ds

/-- Python `a <= b` on strings (code-point lexicographic order). -/
def strLeB (a b : String) : Bool :=
  charListLe a.toList b.toList

/-- `initialize_child`: wrap a subschema, keeping the constructing node's
root (never the intermediate node). A child is never the root. -/
def initialize_child (node : SchemaNode) (schema : JSONValue)
    (name : Option String := none) : SchemaNode :=
  ⟨schema, node.rootSchema, name, false⟩

/-- `self.__class__(self.root)`: a wrapper of the root schema object. -/
def rootNode (node : SchemaNode) : SchemaNode :=
  ⟨node.rootSchema, node.rootSchema, none, true⟩

/-- Python `ref.split('/')` on a list of characters: split at every `'/'`,
never merging adjacent separators; the empty string yields `[[]]`. -/
def splitSlashAux : List Char → List (List Char)
  | [] => [[]]
  | c :: cs =>
    if c = '/' then [] :: splitSlashAux cs
    else
      match splitSlashAux cs with
      | [] => [[c]]
      | t :: ts => (c :: t) :: ts

/-- Python `ref.split('/')` on strings. -/
def splitSlash (s : String) : List String :=
  (splitSlashAux s.toList).map List.asString

/-- Walk a key path through a JSON value (`for key in path[1:]: schema =
schema[key]`); `none` when a segment is missing or a non-object is hit. -/
def walkPath : JSONValue → List String → Option JSONValue
  | v, [] => some v
  | v, k :: ks =>
    match v.lookup k with
    | some v2 => walkPath v2 ks
    | none => none

/-- `get_reference`: resolve a `$ref` string against the root's document.
Accepts `"#"`/`"#/"` (the root) and otherwise walks the `/`-separated path
from the root schema, wrapping the target with the last path segment as its
name.  Errors mirror the Python `ValueError` messages. -/
def get_reference (node : SchemaNode) (ref : String) : Except String SchemaNode :=
  if ref = "" then .error "empty reference"
  else
    let path := splitSlash ref
    let name := path.getLastD ""
    if path.headD "" ≠ "#" then
      .error ("Unrecognized $ref format: " ++ ref)
    else if path.length = 1 ∨ path[1]? = some "" then
      .ok (rootNode node)
    else
      match walkPath node.rootSchema (path.drop 1) with
      | some schema => .ok (initialize_child node schema (some name))
      | none => .error ("$ref=" ++ ref ++ " not present in the schema")

/-- `wrapped_ref`: resolve this node's own `$ref` value. Errors when the
key is absent or its value is not a string (Python raises there). -/
def wrapped_ref (node : SchemaNode) : Except String SchemaNode :=
  match node.schema.lookup "$ref" with
  | some (.str r) => get_reference node r
  | _ => .error "$ref is absent or not a string"

/-- `is_reference`: the mapping contains `$ref`. -/
def is_reference (node : SchemaNode) : Bool :=
  node.schema.hasKey "$ref"

/-- `self.type`: `schema.get('type', 'object')` via the attr-default table. -/
def typeValue (node : SchemaNode) : JSONValue :=
  (node.schema.lookup "type").getD (.str "object")

/-- Python `any(f(x) for x in xs)` over fallible tests: short-circuiting
disjunction, propagating the first failure evaluated. -/
def anyWith (f : JSONValue → Option Bool) : List JSONValue → Option Bool
  | [] => some false
  | x :: xs =>
    match f x with
    | none => none
    | some true => some true
    | some false => anyWith f xs

/-- Python `all(f(x) for x in xs)` over fallible tests: short-circuiting
conjunction, propagating the first failure evaluated. -/
def allWith (f : JSONValue → Option Bool) : List JSONValue → Option Bool
  | [] => some true
  | x :: xs =>
    match f x with
    | none => none
    | some false => some false
    | some true => allWith f xs

/-- `is_trait`, translated clause for clause from the Python property; the
fuel bounds recursion through `$ref` targets and union branches (`none` =
the Python code raises or recurses forever).  Union branches use
`any(self.initialize_child(spec).is_trait for spec in ...)`. -/
def is_trait : Nat → SchemaNode → Option Bool
  | 0, _ => none
  | fuel + 1, node =>
    match node.schema with
    | .obj _ =>
      if node.schema.hasKey "properties" then some false
      else if typeValue node ≠ .str "object" then some true
      else if node.schema.hasKey "enum" then some true
      else if node.schema.hasKey "$ref" then
        match wrapped_ref node with
        | .ok tgt => is_trait fuel tgt
        | .error _ => none
      else if node.schema.hasKey "anyOf" then
        match node.schema.lookup "anyOf" with
        | some (.arr xs) => anyWith (fun x => is_trait fuel (initialize_child node x)) xs
        | _ => none
      else if node.schema.hasKey "allOf" then
        match node.schema.lookup "allOf" with
        | some (.arr xs) => anyWith (fun x => is_trait fuel (initialize_child node x)) xs
        | _ => none
      else if node.schema.hasKey "oneOf" then
        match node.schema.lookup "oneOf" with
        | some (.arr xs) => anyWith (fun x => is_trait fuel (initialize_child node x)) xs
        | _ => none
      else some false
    | _ => none

/-- `is_object`, translated clause for clause from the Python property.
Union branches use `all(self.initialize_child(spec).is_object ...)`. -/
def is_object : Nat → SchemaNode → Option Bool
  | 0, _ => none
  | fuel + 1, node =>
    match node.schema with
    | .obj _ =>
      if node.schema.hasKey "properties" then some true
      else if node.schema.hasKey "$ref" then
        match wrapped_ref node with
        | .ok tgt => is_object fuel tgt
        | .error _ => none
      else if node.schema.hasKey "anyOf" then
        match node.schema.lookup "anyOf" with
        | some (.arr xs) => allWith (fun x => is_object fuel (initialize_child node x)) xs
        | _ => none
      else if node.schema.hasKey "allOf" then
        match node.schema.lookup "allOf" with
        | some (.arr xs) => allWith (fun x => is_object fuel (initialize_child node x)) xs
        | _ => none
      else if node.schema.hasKey "oneOf" then
        match node.schema.lookup "oneOf" with
        | some (.arr xs) => allWith (fun x => is_object fuel (initialize_child node x)) xs
        | _ => none
      else some false
    | _ => none

/-! ### Attribute access with defaults (`attr_defaults`, `__getattr__`) -/

/-- The fixed `attr_defaults` table of `JSONSchemaTraitlets`. -/
def attr_defaults : List (String × JSONValue) :=
  [("title", .str ""),
   ("description", .str ""),
   ("properties", .obj []),
   ("definitions", .obj []),
   ("default", .null),
   ("examples", .obj []),
   ("type", .str "object"),
   ("required", .arr []),
   ("additionalProperties", .bool true)]

/-- `__getattr__`: a recognized keyword returns the schema's value or the
table default; any other attribute (not otherwise defined on the class)
raises `AttributeError`. -/
def getattr (node : SchemaNode) (attr : String) : Except String JSONValue :=
  match attr_defaults.lookup attr with
  | some d => .ok ((node.schema.lookup attr).getD d)
  | none => .error ("JSONSchemaTraitlets object has no attribute " ++ attr)

/-! ### Extractor dispatch with per-instance memoization (`trait_extractor`)

The concrete extractor classes live in `trait_extractors.py`, outside the
wrapper; the dispatcher only needs each rule's applicability test
(`TraitExtractor(self).check()`), so rules are modelled as an ordered list
of boolean tests on the node.  The per-instance cache `_trait_extractor`
(initialized to `None` in `__init__`) is carried as explicit state. -/

/-- A schema node instance together with its private `_trait_extractor`
memoization cell (holding the index of the matched rule). -/
structure DispatchState : Type where
  node : SchemaNode
  cachedExtractor : Option Nat
deriving Repr, DecidableEq

/-- A freshly constructed wrapper: `__init__` sets `_trait_extractor = None`. -/
def freshState (node : SchemaNode) : DispatchState := ⟨node, none⟩

/-- The `for ... if trait_extractor.check(): break` scan: index of the first
rule whose test passes. -/
def findFirstMatch (rules : List (SchemaNode → Bool)) (node : SchemaNode) : Option Nat :=
  match rules with
  | [] => none
  | r :: rs => if r node then some 0 else (findFirstMatch rs node).map (· + 1)

/-- The `trait_extractor` property: return the cached match if present,
else scan the rule list, caching a first match and raising `ValueError`
with the schema's top-level keys when nothing matches.  The result triple
is (outcome, updated instance state, whether the rule list was scanned). -/
def trait_extractor (rules : List (SchemaNode → Bool)) (st : DispatchState) :
    Except (List String) Nat × DispatchState × Bool :=
  match st.cachedExtractor with
  | some i => (.ok i, st, false)
  | none =>
    match findFirstMatch rules st.node with
    | some i => (.ok i, ⟨st.node, some i⟩, true)
    | none => (.error st.node.schema.topKeys, st, true)

/-! ### Naming and definitions (`classname`, `all_definitions`,
`wrapped_definitions`) -/

/-- Sort an association list by key, Python `sorted(d.items())` (dict keys
are unique, so the tuple comparison is decided by the keys; Python sorts
strings by code point, which `strLeB` mirrors). -/
def sortByKey (l : List (String × JSONValue)) : List (String × JSONValue) :=
  l.insertionSort (fun a b => strLeB a.1 b.1 = true)

/-- Insertion into an ordered dict: an existing key keeps its position and
gets the new value; a new key is appended. -/
def odInsert (m : List (String × SchemaNode)) (k : String) (v : SchemaNode) :
    List (String × SchemaNode) :=
  if m.any (fun p => p.1 = k) then
    m.map (fun p => if p.1 = k then (k, v) else p)
  else m ++ [(k, v)]

/-- Python `OrderedDict(pairs)`: left-to-right insertion. -/
def odOfList (pairs : List (String × SchemaNode)) : List (String × SchemaNode) :=
  pairs.foldl (fun m p => odInsert m p.1 p.2) []

/-- Modelled from the spec: the underlying schema object class (not part of
this file's source) exposes `definitions`; per the spec it is "the root's
`definitions` keyword value" — the mapping under the root document's
`definitions` key, empty when absent or not a mapping. -/
def schemaobjDefinitions (node : SchemaNode) : List (String × JSONValue) :=
  match node.rootSchema.lookup "definitions" with
  | some (.obj fields) => fields
  | _ => []

/-- `all_definitions`: `OrderedDict(sorted(self.schemaobj.definitions.items()))`. -/
def all_definitions (node : SchemaNode) : List (String × JSONValue) :=
  sortByKey (schemaobjDefinitions node)

/-- `wrapped_definitions`: each definition wrapped as a child node carrying
its original name, keyed by the lower-cased name, assembled in sorted order
into an ordered dict. -/
def wrapped_definitions (node : SchemaNode) : List (String × SchemaNode) :=
  odOfList ((sortByKey (all_definitions node)).map
    (fun p => (lowerName p.1, initialize_child node p.2 (some p.1))))

/-- `classname`: the regularized explicit name when one is present
(Python truthiness: `None` and `""` are falsy), else the configured root
name for the root, else the `$ref` target's classname for a reference,
else `NotImplementedError`.  `utils.regularize_name` and
`schemaobj.root_name` live outside this file's source and are passed as
parameters. -/
def classname (reg : String → String) (rootName : String) :
    Nat → SchemaNode → Except String String
  | 0, _ => .error "recursion limit exceeded"
  | fuel + 1, node =>
    if node.name.getD "" ≠ "" then .ok (reg (node.name.getD ""))
    else if node.isRoot then .ok rootName
    else if is_reference node then
      match wrapped_ref node with
      | .ok tgt => classname reg rootName fuel tgt
      | .error e => .error e
    else .error ("class name for schema with keys " ++ toString node.schema.topKeys)

/-! ### Properties and import aggregation (`wrapped_properties`,
`object_imports`) -/

/-- The fixed `basic_imports` class attribute. -/
def basic_imports : List String :=
  ["import traitlets as T", "from . import jstraitlets as jst"]

/-- `self.additionalProperties` via the attr-default table (default `True`). -/
def additionalPropertiesValue (node : SchemaNode) : JSONValue :=
  (node.schema.lookup "additionalProperties").getD (.bool true)

/-- `self.properties` via the attr-default table (default `{}`). -/
def propertiesValue (node : SchemaNode) : JSONValue :=
  (node.schema.lookup "properties").getD (.obj [])

/-- `wrapped_properties`: each property value wrapped as an anonymous child
node, iterated in sorted key order and assembled into an ordered dict.
`rmap` is modelled from the spec: the key step `reverse_map.get(name, name)`
uses `utils.trait_name_map`, a name-regularization/collision-mapping helper
that is not part of this file's source. -/
def wrapped_properties (rmap : String → String) (node : SchemaNode) :
    Except String (List (String × SchemaNode)) :=
  match propertiesValue node with
  | .obj fields =>
    .ok (odOfList ((sortByKey fields).map
      (fun p => (rmap p.1, initialize_child node p.2))))
  | _ => .error "properties is not a mapping"

/-- `sorted(set(imports), reverse=True)`: deduplicate, then sort in reverse
(descending) lexical order. -/
def sortDescDedup (l : List String) : List String :=
  l.dedup.insertionSort (fun a b => strLeB b a = true)

/-- The `trait_imports` of the `additionalProperties` child when that
keyword holds a schema (a dict) rather than a boolean; `[]` otherwise.
`ti` stands for the selected extractor's `trait_imports`, which lives in
`trait_extractors.py` outside this file's source. -/
def apTraitImports (ti : SchemaNode → List String) (node : SchemaNode) : List String :=
  match additionalPropertiesValue node with
  | .obj fields => ti (initialize_child node (.obj fields))
  | _ => []

/-- The resolved `$ref` target's `import_statement` when this node is a
reference; `ist` stands for the selected extractor's `import_statement`. -/
def refImports (ist : SchemaNode → String) (node : SchemaNode) :
    Except String (List String) :=
  if is_reference node then
    match wrapped_ref node with
    | .ok tgt => .ok [ist tgt]
    | .error e => .error e
  else .ok []

/-- The concatenated `trait_imports` of every wrapped property. -/
def propTraitImports (ti : SchemaNode → List String)
    (props : List (String × SchemaNode)) : List String :=
  ((props.map Prod.snd).map ti).flatten

/-- `object_imports`: basic imports, plus the `additionalProperties` child's
trait imports when that keyword is a schema, plus the reference target's own
statement when this node is a reference, plus every wrapped property's
trait imports; deduplicated as a set and sorted in reverse lexical order. -/
def object_imports (ti : SchemaNode → List String) (ist : SchemaNode → String)
    (rmap : String → String) (node : SchemaNode) : Except String (List String) :=
  match refImports ist node with
  | .error e => .error e
  | .ok refs =>
    match wrapped_properties rmap node with
    | .error e => .error e
    | .ok props =>
      .ok (sortDescDedup
        (basic_imports ++ apTraitImports ti node ++ refs ++ propTraitImports ti props))

/-! ### Spec-side classifiers

`isTraitSpec` and `isObjectSpec` transcribe the specification's decision
tables word for word (the spec folds the three union keywords into a single
clause, taking the branches of the first one present, in the order it lists
them); the claims assert they agree with the code's `is_trait`/`is_object`. -/

/-- The branches of the first union keyword present, in the spec's order
`anyOf`, `allOf`, `oneOf`; `none` when no union keyword is present. -/
def unionBranches (node : SchemaNode) : Option JSONValue :=
  if node.schema.hasKey "anyOf" then node.schema.lookup "anyOf"
  else if node.schema.hasKey "allOf" then node.schema.lookup "allOf"
  else if node.schema.hasKey "oneOf" then node.schema.lookup "oneOf"
  else none

/-- Spec decision table for `is_trait`: `properties` present → false; else
declared type (defaulting to `"object"`) ≠ `"object"` → true; else `enum`
present → true; else `$ref` present → the resolved target's `is_trait`;
else a union keyword present → true iff at least one branch, wrapped as a
child, is a trait; else false. -/
def isTraitSpec : Nat → SchemaNode → Option Bool
  | 0, _ => none
  | fuel + 1, node =>
    match node.schema with
    | .obj _ =>
      if node.schema.hasKey "properties" then some false
      else if (node.schema.lookup "type").getD (.str "object") ≠ .str "object" then some true
      else if node.schema.hasKey "enum" then some true
      else if node.schema.hasKey "$ref" then
        match wrapped_ref node with
        | .ok tgt => isTraitSpec fuel tgt
        | .error _ => none
      else
        match unionBranches node with
        | some (.arr xs) => anyWith (fun x => isTraitSpec fuel (initialize_child node x)) xs
        | some _ => none
        | none => some false
    | _ => none

/-- Spec decision table for `is_object`: `properties` present → true; else
`$ref` present → the resolved target's `is_object`; else a union keyword
present → true iff every branch, wrapped as a child, is an object; else
false. -/
def isObjectSpec : Nat → SchemaNode → Option Bool
  | 0, _ => none
  | fuel + 1, node =>
    match node.schema with
    | .obj _ =>
      if node.schema.hasKey "properties" then some true
      else if node.schema.hasKey "$ref" then
        match wrapped_ref node with
        | .ok tgt => isObjectSpec fuel tgt
        | .error _ => none
      else
        match unionBranches node with
        | some (.arr xs) => allWith (fun x => isObjectSpec fuel (initialize_child node x)) xs
        | some _ => none
        | none => some false
    | _ => none

/-! ### Concrete inputs used to instantiate the theorems -/

/-- The fixed set of recognized JSON-Schema keywords (the keys of
`attr_defaults`). -/
def recognizedAttrs : List String :=
  ["title", "description", "properties", "definitions", "default", "examples",
   "type", "required", "additionalProperties"]

/-- A schema combining a non-object `type` with a union whose single branch
is a keyed object: `{"type": "string", "anyOf": [{"properties": {}}]}`. -/
def c3BothNode : SchemaNode :=
  ⟨.obj [("type", .str "string"), ("anyOf", .arr [.obj [("properties", .obj [])]])],
   .obj [("type", .str "string"), ("anyOf", .arr [.obj [("properties", .obj [])]])],
   none, true⟩

/-- A plain `{"type": "object"}` node (no union keywords, no reference). -/
def c3PlainNode : SchemaNode :=
  ⟨.obj [("type", .str "object")], .obj [("type", .str "object")], none, true⟩

/-- A document with one definition `Foo`. -/
def c4Doc : JSONValue :=
  .obj [("definitions", .obj [("Foo", .obj [("type", .str "string")])])]

/-- The root node of `c4Doc`. -/
def c4Root : SchemaNode := ⟨c4Doc, c4Doc, none, true⟩

/-- A document with one property `x` and no definitions. -/
def c5Doc : JSONValue :=
  .obj [("properties", .obj [("x", .obj [("type", .str "string")])])]

/-- The root node of `c5Doc`. -/
def c5Root : SchemaNode := ⟨c5Doc, c5Doc, none, true⟩

/-- A two-rule extractor list: a reference rule followed by an enum rule. -/
def rules6 : List (SchemaNode → Bool) :=
  [fun n => n.schema.hasKey "$ref", fun n => n.schema.hasKey "enum"]

/-- An enum node matched by the second rule of `rules6`. -/
def c6Node : SchemaNode :=
  ⟨.obj [("enum", .arr [.str "a"])], .obj [("enum", .arr [.str "a"])], none, true⟩

/-- A node declaring `type: string` and nothing else. -/
def c7Node : SchemaNode :=
  ⟨.obj [("type", .str "string")], .obj [("type", .str "string")], none, true⟩

/-- A document whose definitions `Foo` and `foo` differ only by casing. -/
def c8Doc : JSONValue :=
  .obj [("definitions", .obj
    [("Foo", .obj [("enum", .arr [.num 1])]),
     ("foo", .obj [("enum", .arr [.num 2])])])]

/-- The root node of `c8Doc`. -/
def c8Root : SchemaNode := ⟨c8Doc, c8Doc, none, true⟩

/-- A document with the single definition `Color`. -/
def c8wDoc : JSONValue :=
  .obj [("definitions", .obj
    [("Color", .obj [("enum", .arr [.str "red", .str "green"])])])]

/-- The root node of `c8wDoc`. -/
def c8wRoot : SchemaNode := ⟨c8wDoc, c8wDoc, none, true⟩

/-- A document with two properties. -/
def c9Doc : JSONValue :=
  .obj [("properties", .obj
    [("x", .obj [("type", .str "string")]), ("y", .obj [("type", .str "number")])])]

/-- The root node of `c9Doc`. -/
def c9Root : SchemaNode := ⟨c9Doc, c9Doc, none, true⟩

/-- A stand-in extractor `trait_imports` returning two fixed imports. -/
def ti9 : SchemaNode → List String := fun _ => ["import b", "import a"]

/-- A stand-in extractor `import_statement`. -/
def ist9 : SchemaNode → String := fun _ => "from . import foo"

/-- A document whose definitions `Foo` and `foo` differ only by casing. -/
def c10Doc : JSONValue :=
  .obj [("definitions", .obj
    [("Foo", .obj [("type", .str "string")]),
     ("foo", .obj [("type", .str "number")])])]

/-- The root node of `c10Doc`. -/
def c10Root : SchemaNode := ⟨c10Doc, c10Doc, none, true⟩

/-! ### General lemmas about the embedding's building blocks -/

theorem charListLe_total : ∀ xs ys : List Char,
    charListLe xs ys = true ∨ charListLe ys xs = true := by
  intro xs
  induction xs with
  | nil => intro ys; left; rfl
  | cons c cs ih =>
    intro ys
    cases ys with
    | nil => right; rfl
    | cons d ds =>
      by_cases h1 : c < d
      · left; simp [charListLe, h1]
      · by_cases h2 : d < c
        · right; simp [charListLe, h2]
        · rcases ih ds with h | h
          · left; simp [charListLe, h1, h2, h]
          · right; simp [charListLe, h1, h2, h]

theorem charListLe_trans :
    ∀ xs ys zs : List Char, charListLe xs ys = true → charListLe ys zs = true →
      charListLe xs zs = true := by
  intro xs
  induction xs with
  | nil => intro ys zs _ _; rfl
  | cons c cs ih =>
    intro ys zs h1 h2
    cases ys with
    | nil => simp [charListLe] at h1
    | cons d ds =>
      cases zs with
      | nil => simp [charListLe] at h2
      | cons e es =>
        simp only [charListLe] at h1 h2 ⊢
        by_cases hcd : c < d
        · by_cases hde : d < e
          · simp [lt_trans hcd hde]
          · by_cases hed : e < d
            · simp [hde, hed] at h2
            · have heq : d = e := le_antisymm (not_lt.mp hed) (not_lt.mp hde)
              subst heq
              simp [hcd]
        · by_cases hdc : d < c
          · simp [hcd, hdc] at h1
          · have heq : c = d := le_antisymm (not_lt.mp hdc) (not_lt.mp hcd)
            subst heq
            simp only [lt_irrefl, if_neg (lt_irrefl c), if_false] at h1 h2 ⊢
            by_cases hce : c < e
            · simp [hce]
            · by_cases hec : e < c
              · simp [hce, hec] at h2
              · simp only [if_neg hce, if_neg hec] at h2 ⊢
                exact ih ds es (by simpa using h1) (by simpa using h2)

theorem strLeB_total (a b : String) : strLeB a b = true ∨ strLeB b a = true :=
  charListLe_total a.toList b.toList

theorem strLeB_trans {a b c : String} (h1 : strLeB a b = true)
    (h2 : strLeB b c = true) : strLeB a c = true :=
  charListLe_trans a.toList b.toList c.toList h1 h2

theorem anyWith_congr {f g : JSONValue → Option Bool} (h : ∀ x, f x = g x) :
    ∀ xs, anyWith f xs = anyWith g xs := by
  intro xs
  induction xs with
  | nil => rfl
  | cons x xs ih => simp only [anyWith, h x, ih]

theorem allWith_congr {f g : JSONValue → Option Bool} (h : ∀ x, f x = g x) :
    ∀ xs, allWith f xs = allWith g xs := by
  intro xs
  induction xs with
  | nil => rfl
  | cons x xs ih => simp only [allWith, h x, ih]

theorem findFirstMatch_spec :
    ∀ (rules : List (SchemaNode → Bool)) (node : SchemaNode) (i : Nat),
      findFirstMatch rules node = some i →
      ∃ r, rules[i]? = some r ∧ r node = true ∧
        ∀ j r2, j < i → rules[j]? = some r2 → r2 node = false := by
  intro rules
  induction rules with
  | nil => intro node i h; cases h
  | cons r rs ih =>
    intro node i h
    simp only [findFirstMatch] at h
    by_cases hr : r node
    · rw [if_pos hr] at h
      cases h
      exact ⟨r, by simp, hr, fun j r2 hj _ => absurd hj (Nat.not_lt_zero j)⟩
    · rw [if_neg hr] at h
      cases hfm : findFirstMatch rs node with
      | none => rw [hfm] at h; cases h
      | some k =>
        rw [hfm] at h
        simp only [Option.map_some'] at h
        cases h
        obtain ⟨r2, hr2, hr2t, hprev⟩ := ih node k hfm
        refine ⟨r2, by simpa using hr2, hr2t, ?_⟩
        intro j r3 hj hr3
        cases j with
        | zero =>
          simp only [List.getElem?_cons_zero] at hr3
          cases hr3
          exact Bool.eq_false_iff.mpr hr
        | succ j2 =>
          simp only [List.getElem?_cons_succ] at hr3
          exact hprev j2 r3 (Nat.lt_of_succ_lt_succ hj) hr3

theorem findFirstMatch_none :
    ∀ (rules : List (SchemaNode → Bool)) (node : SchemaNode),
      (∀ r ∈ rules, r node = false) → findFirstMatch rules node = none := by
  intro rules
  induction rules with
  | nil => intro node _; rfl
  | cons r rs ih =>
    intro node h
    simp only [findFirstMatch]
    rw [if_neg (by simp [h r (List.mem_cons_self r rs)]), ih node
      (fun r2 hr2 => h r2 (List.mem_cons_of_mem r hr2))]
    rfl

theorem recognized_has_default : ∀ attr ∈ recognizedAttrs,
    ∃ d, attr_defaults.lookup attr = some d := by
  intro attr h
  fin_cases h <;> exact ⟨_, rfl⟩

theorem lookup_eq_none_of_ne_keys :
    ∀ (l : List (String × JSONValue)) (a : String), (∀ p ∈ l, a ≠ p.1) →
      l.lookup a = none := by
  intro l
  induction l with
  | nil => intro a _; rfl
  | cons p ps ih =>
    intro a h
    simp only [List.lookup]
    rw [beq_eq_false_iff_ne.mpr (h p (List.mem_cons_self p ps))]
    exact ih a (fun q hq => h q (List.mem_cons_of_mem p hq))

theorem sortByKey_perm (l : List (String × JSONValue)) : List.Perm (sortByKey l) l :=
  List.perm_insertionSort _ l

theorem sortByKey_sorted (l : List (String × JSONValue)) :
    (sortByKey l).Sorted (fun a b => strLeB a.1 b.1 = true) := by
  haveI : IsTotal (String × JSONValue) (fun a b => strLeB a.1 b.1 = true) :=
    ⟨fun a b => strLeB_total a.1 b.1⟩
  haveI : IsTrans (String × JSONValue) (fun a b => strLeB a.1 b.1 = true) :=
    ⟨fun _ _ _ h1 h2 => strLeB_trans h1 h2⟩
  exact List.sorted_insertionSort _ l

theorem sortByKey_idem (l : List (String × JSONValue)) :
    sortByKey (sortByKey l) = sortByKey l :=
  (sortByKey_sorted l).insertionSort_eq

theorem odOfList_aux :
    ∀ (l acc : List (String × SchemaNode)), ((acc ++ l).map Prod.fst).Nodup →
      List.foldl (fun m p => odInsert m p.1 p.2) acc l = acc ++ l := by
  intro l
  induction l with
  | nil => intro acc _; simp
  | cons p ps ih =>
    intro acc h
    have hd : ¬(p.1 ∈ acc.map Prod.fst) := by
      rw [List.map_append] at h
      have hdisj := (List.nodup_append.mp h).2.2
      intro hc
      exact hdisj hc (by simp)
    have hins : odInsert acc p.1 p.2 = acc ++ [p] := by
      rw [odInsert, if_neg]
      simp only [List.any_eq_true, not_exists]
      rintro q ⟨hq, hdec⟩
      simp only [decide_eq_true_eq] at hdec
      exact hd (hdec ▸ List.mem_map_of_mem Prod.fst hq)
    simp only [List.foldl, hins]
    rw [ih (acc ++ [p]) (by simpa using h)]
    simp

theorem odOfList_eq_self (l : List (String × SchemaNode))
    (h : (l.map Prod.fst).Nodup) : odOfList l = l := by
  have haux := odOfList_aux l [] (by simpa using h)
  simpa [odOfList] using haux

theorem lookup_of_mem_nodupKeys :
    ∀ (l : List (String × SchemaNode)) (k : String) (v : SchemaNode),
      (l.map Prod.fst).Nodup → (k, v) ∈ l → l.lookup k = some v := by
  intro l
  induction l with
  | nil => intro k v _ h; cases h
  | cons p ps ih =>
    intro k v hn hm
    rcases List.mem_cons.mp hm with heq | hmem
    · cases heq
      simp [List.lookup]
    · have hk : (k == p.1) = false := by
        refine beq_eq_false_iff_ne.mpr (fun hc => ?_)
        exact (List.nodup_cons.mp (by simpa using hn)).1
          (hc ▸ List.mem_map_of_mem Prod.fst hmem)
      rw [List.lookup, hk]
      exact ih k v (List.nodup_cons.mp (by simpa using hn)).2 hmem

theorem classname_of_name (reg : String → String) (rootName : String) (fuel : Nat)
    (s rt : JSONValue) (D : String) (hD : D ≠ "") :
    classname reg rootName (fuel + 1) ⟨s, rt, some D, false⟩ = .ok (reg D) := by
  simp [classname, hD]

theorem sortDescDedup_nodup (l : List String) : (sortDescDedup l).Nodup :=
  (List.perm_insertionSort _ _).nodup_iff.mpr l.nodup_dedup

theorem sortDescDedup_sorted (l : List String) :
    (sortDescDedup l).Sorted (fun a b : String => strLeB b a = true) := by
  haveI : IsTotal String (fun a b : String => strLeB b a = true) :=
    ⟨fun a b => strLeB_total b a⟩
  haveI : IsTrans String (fun a b : String => strLeB b a = true) :=
    ⟨fun _ _ _ h1 h2 => strLeB_trans h2 h1⟩
  exact List.sorted_insertionSort _ _

theorem mem_sortDescDedup (l : List String) (x : String) :
    x ∈ sortDescDedup l ↔ x ∈ l := by
  simp [sortDescDedup, List.mem_insertionSort, List.mem_dedup]

/-! ### The claims -/

/-- C1: for every schema node (and every recursion budget), `is_trait`
agrees with the specification's decision table, evaluated in the spec's
precedence: `properties` present → false; declared type (defaulting to
`"object"`) ≠ `"object"` → true; `enum` present → true; `$ref` present →
the resolved target's `is_trait`; a union keyword present → true iff at
least one branch, wrapped as a child, is a trait; otherwise false. -/
theorem C1_is_trait_decision_table :
    ∀ fuel node, is_trait fuel node = isTraitSpec fuel node := by
  intro fuel
  induction fuel with
  | zero => intro node; rfl
  | succ n ih =>
    rintro ⟨s, rt, nm, ir⟩
    simp only [is_trait, isTraitSpec, typeValue, unionBranches]
    cases s with
    | obj fields =>
      split_ifs with h1 h2 h3 h4 h5 h6 h7
      · rfl
      · rfl
      · rfl
      · cases wrapped_ref ⟨.obj fields, rt, nm, ir⟩ with
        | ok tgt => exact ih tgt
        | error e => rfl
      · cases hl : (JSONValue.obj fields).lookup "anyOf" with
        | none => rw [JSONValue.hasKey, hl] at h5; cases h5
        | some v => cases v <;> first
          | rfl
          | exact anyWith_congr (fun x => ih _) _
      · cases hl : (JSONValue.obj fields).lookup "allOf" with
        | none => rw [JSONValue.hasKey, hl] at h6; cases h6
        | some v => cases v <;> first
          | rfl
          | exact anyWith_congr (fun x => ih _) _
      · cases hl : (JSONValue.obj fields).lookup "oneOf" with
        | none => rw [JSONValue.hasKey, hl] at h7; cases h7
        | some v => cases v <;> first
          | rfl
          | exact anyWith_congr (fun x => ih _) _
      · rfl
    | null => rfl
    | bool b => rfl
    | num m => rfl
    | str s => rfl
    | arr xs => rfl

/-- C2: `is_object` agrees with the specification's decision table
(`properties` present → true; `$ref` present → the target's `is_object`; a
union keyword present → true iff every branch is an object; else false);
and a node whose mapping is exactly `{"type": "object"}` has both
`is_trait` and `is_object` false. -/
theorem C2_is_object_decision_table :
    (∀ fuel node, is_object fuel node = isObjectSpec fuel node) ∧
    (∀ (fuel : Nat) (rt : JSONValue) (nm : Option String) (ir : Bool),
      is_trait (fuel + 1) ⟨.obj [("type", .str "object")], rt, nm, ir⟩ = some false ∧
      is_object (fuel + 1) ⟨.obj [("type", .str "object")], rt, nm, ir⟩ = some false) := by
  constructor
  · intro fuel
    induction fuel with
    | zero => intro node; rfl
    | succ n ih =>
      rintro ⟨s, rt, nm, ir⟩
      simp only [is_object, isObjectSpec, unionBranches]
      cases s with
      | obj fields =>
        split_ifs with h1 h2 h3 h4 h5
        · rfl
        · cases wrapped_ref ⟨.obj fields, rt, nm, ir⟩ with
          | ok tgt => exact ih tgt
          | error e => rfl
        · cases hl : (JSONValue.obj fields).lookup "anyOf" with
          | none => rw [JSONValue.hasKey, hl] at h3; cases h3
          | some v => cases v <;> first
            | rfl
            | exact allWith_congr (fun x => ih _) _
        · cases hl : (JSONValue.obj fields).lookup "allOf" with
          | none => rw [JSONValue.hasKey, hl] at h4; cases h4
          | some v => cases v <;> first
            | rfl
            | exact allWith_congr (fun x => ih _) _
        · cases hl : (JSONValue.obj fields).lookup "oneOf" with
          | none => rw [JSONValue.hasKey, hl] at h5; cases h5
          | some v => cases v <;> first
            | rfl
            | exact allWith_congr (fun x => ih _) _
        · rfl
      | null => rfl
      | bool b => rfl
      | num m => rfl
      | str s => rfl
      | arr xs => rfl
  · intro fuel rt nm ir
    exact ⟨rfl, rfl⟩

/-- C3, counterexample: a node combining `type: string` with a union of a
single keyed-object branch is classified as both a trait (via the type
clause) and an object (via the all-branches-are-objects clause), so
`is_trait` and `is_object` can both be true for a node of a structurally
valid document. -/
theorem C3_counterexample_both_true :
    is_trait 2 c3BothNode = some true ∧ is_object 2 c3BothNode = some true :=
  ⟨rfl, rfl⟩

/-- C3, amended: for nodes whose mapping contains none of `$ref`, `anyOf`,
`allOf`, `oneOf`, the predicates `is_trait` and `is_object` are never both
true (with those keywords, both can be true at once). -/
theorem C3_not_both_without_ref_or_union :
    ∀ (fuel : Nat) (node : SchemaNode),
      node.schema.hasKey "$ref" = false → node.schema.hasKey "anyOf" = false →
      node.schema.hasKey "allOf" = false → node.schema.hasKey "oneOf" = false →
      ¬(is_trait fuel node = some true ∧ is_object fuel node = some true) := by
  intro fuel node h1 h2 h3 h4
  rintro ⟨ht, ho⟩
  cases fuel with
  | zero => simp [is_trait] at ht
  | succ n =>
    obtain ⟨s, rt, nm, ir⟩ := node
    dsimp only at h1 h2 h3 h4
    cases s with
    | obj fields =>
      simp only [is_trait] at ht
      simp only [is_object, h1, h2, h3, h4] at ho
      by_cases hp : (JSONValue.obj fields).hasKey "properties" = true
      · simp only [if_pos hp] at ht
        cases ht
      · simp only [if_neg hp] at ho
        cases ho
    | null => simp [is_trait] at ht
    | bool b => simp [is_trait] at ht
    | num m => simp [is_trait] at ht
    | str s2 => simp [is_trait] at ht
    | arr xs => simp [is_trait] at ht

/-- C3, witness: the amended statement applied to a plain
`{"type": "object"}` node. -/
theorem C3_not_both_witness :
    ¬(is_trait 1 c3PlainNode = some true ∧ is_object 1 c3PlainNode = some true) :=
  C3_not_both_without_ref_or_union 1 c3PlainNode rfl rfl rfl rfl

/-- C4: for any document whose root mapping holds `Foo` under
`definitions`, resolving `"#/definitions/Foo"` from any node of that
document yields a node wrapping exactly that subschema (resolution walks
the root's document, whatever the resolving node's own schema is), named
`Foo` by its path; and resolving `"#"` yields the root node. -/
theorem C4_reference_resolution (node : SchemaNode)
    (defs : List (String × JSONValue)) (target : JSONValue)
    (hdefs : node.rootSchema.lookup "definitions" = some (.obj defs))
    (hfoo : defs.lookup "Foo" = some target) :
    get_reference node "#/definitions/Foo" =
      .ok ⟨target, node.rootSchema, some "Foo", false⟩ ∧
    get_reference node "#" = .ok (rootNode node) := by
  constructor
  · show (match walkPath node.rootSchema ["definitions", "Foo"] with
      | some s => Except.ok (initialize_child node s (some "Foo"))
      | none => Except.error "$ref=#/definitions/Foo not present in the schema") = _
    simp only [walkPath, hdefs]
    simp only [JSONValue.lookup, hfoo]
    rfl
  · rfl

/-- C4, witness: the statement applied to a concrete document with one
definition `Foo`. -/
theorem C4_reference_resolution_witness :
    get_reference c4Root "#/definitions/Foo" =
      .ok ⟨.obj [("type", .str "string")], c4Doc, some "Foo", false⟩ ∧
    get_reference c4Root "#" = .ok (rootNode c4Root) :=
  C4_reference_resolution c4Root [("Foo", .obj [("type", .str "string")])]
    (.obj [("type", .str "string")]) rfl rfl

/-- C5, counterexample: resolution is not limited to `"#"` and
`"#/definitions/<Name>"` — the reference `"#/properties/x"` is accepted
and resolves to the corresponding subschema of the document. -/
theorem C5_counterexample_accepts_other_path :
    get_reference c5Root "#/properties/x" =
      .ok ⟨.obj [("type", .str "string")], c5Doc, some "x", false⟩ := by
  decide

/-- C5, amended: the empty reference fails with an `empty reference` error;
a reference whose leading `/`-segment is not `#` fails with a format error
carrying the offending string; and a non-empty `#`-leading reference is
accepted exactly when it is the root form (`#`, `#/`) or its remaining path
segments are all present walking from the root document — acceptance is not
limited to `#/definitions/<Name>`. -/
theorem C5_reference_acceptance (node : SchemaNode) (ref : String) :
    (ref = "" → get_reference node ref = .error "empty reference") ∧
    (ref ≠ "" → (splitSlash ref).headD "" ≠ "#" →
      get_reference node ref = .error ("Unrecognized $ref format: " ++ ref)) ∧
    ((∃ n, get_reference node ref = .ok n) ↔
      (ref ≠ "" ∧ (splitSlash ref).headD "" = "#" ∧
        ((splitSlash ref).length = 1 ∨ (splitSlash ref)[1]? = some "" ∨
         (walkPath node.rootSchema ((splitSlash ref).drop 1)).isSome))) := by
  refine ⟨?_, ?_, ?_⟩
  · intro h
    simp only [get_reference, if_pos h]
  · intro h1 h2
    simp only [get_reference, if_neg h1, if_pos h2]
  · simp only [get_reference]
    split_ifs with h1 h2 h3
    · constructor
      · rintro ⟨n, hn⟩
        cases hn
      · rintro ⟨hne, _⟩
        exact absurd h1 hne
    · constructor
      · rintro ⟨n, hn⟩
        cases hn
      · rintro ⟨_, hhead, _⟩
        exact absurd hhead h2
    · push_neg at h2
      constructor
      · rintro ⟨n, hn⟩
        exact ⟨h1, h2, h3.elim Or.inl (fun hb => Or.inr (Or.inl hb))⟩
      · rintro _
        exact ⟨rootNode node, rfl⟩
    · push_neg at h2
      rw [not_or] at h3
      cases hw : walkPath node.rootSchema ((splitSlash ref).drop 1) with
      | some s =>
        constructor
        · rintro ⟨n, hn⟩
          exact ⟨h1, h2, Or.inr (Or.inr rfl)⟩
        · rintro _
          exact ⟨initialize_child node s (some ((splitSlash ref).getLastD "")), rfl⟩
      | none =>
        constructor
        · rintro ⟨n, hn⟩
          cases hn
        · rintro ⟨_, _, habs⟩
          rcases habs with h | h | h
          · exact absurd h h3.1
          · exact absurd h h3.2
          · cases h

/-- C5, witness: the malformed reference `notaref` is rejected with the
format error carrying the offending string. -/
theorem C5_reference_acceptance_witness :
    get_reference c5Root "notaref" = .error ("Unrecognized $ref format: " ++ "notaref") :=
  (C5_reference_acceptance c5Root "notaref").2.1 (by decide) (by decide)

/-- C6: on a freshly constructed node the dispatcher scans the rule list
and returns the first rule whose applicability test passes; when no rule
passes it fails with an error carrying the node's top-level keys; and the
result is memoized on the instance, so a repeated query returns the same
result without scanning, while a fresh instance over the same subschema
scans again (the first conjunct holds for every fresh instance). -/
theorem C6_trait_extractor_dispatch (rules : List (SchemaNode → Bool)) (node : SchemaNode) :
    (trait_extractor rules (freshState node)).2.2 = true ∧
    (∀ i, (trait_extractor rules (freshState node)).1 = .ok i →
      ∃ r, rules[i]? = some r ∧ r node = true ∧
        ∀ j r2, j < i → rules[j]? = some r2 → r2 node = false) ∧
    ((∀ r ∈ rules, r node = false) →
      (trait_extractor rules (freshState node)).1 = .error node.schema.topKeys) ∧
    (∀ i, (trait_extractor rules (freshState node)).1 = .ok i →
      trait_extractor rules (trait_extractor rules (freshState node)).2.1 =
        (.ok i, (trait_extractor rules (freshState node)).2.1, false)) := by
  refine ⟨?_, ?_, ?_, ?_⟩
  · simp only [trait_extractor, freshState]
    cases hfm : findFirstMatch rules node <;> rfl
  · intro i hok
    simp only [trait_extractor, freshState] at hok
    cases hfm : findFirstMatch rules node with
    | none => rw [hfm] at hok; cases hok
    | some k =>
      rw [hfm] at hok
      cases hok
      exact findFirstMatch_spec rules node i hfm
  · intro hall
    simp only [trait_extractor, freshState, findFirstMatch_none rules node hall]
  · intro i hok
    simp only [trait_extractor, freshState] at hok ⊢
    cases hfm : findFirstMatch rules node with
    | none => rw [hfm] at hok; cases hok
    | some k =>
      rw [hfm] at hok
      cases hok
      rfl

/-- C6, witness: on a two-rule list where only the second rule matches, a
fresh instance scans, dispatch picks rule 1, and the repeated query on the
updated instance returns the same pick without scanning. -/
theorem C6_trait_extractor_dispatch_witness :
    (trait_extractor rules6 (freshState c6Node)).2.2 = true ∧
    trait_extractor rules6 (trait_extractor rules6 (freshState c6Node)).2.1 =
      (.ok 1, (trait_extractor rules6 (freshState c6Node)).2.1, false) :=
  ⟨(C6_trait_extractor_dispatch rules6 c6Node).1,
   (C6_trait_extractor_dispatch rules6 c6Node).2.2.2 1 (by decide)⟩

/-- C7: attribute access returns the schema's value for each of the nine
recognized keywords when present, the documented default when absent
(`type` → `"object"`, `required` → `[]`, `additionalProperties` → `true`),
and fails with an unknown-attribute error for every attribute outside the
fixed set. -/
theorem C7_getattr_allowlist (node : SchemaNode) :
    (∀ attr v, attr ∈ recognizedAttrs → node.schema.lookup attr = some v →
      getattr node attr = .ok v) ∧
    (∀ attr d, attr ∈ recognizedAttrs → attr_defaults.lookup attr = some d →
      node.schema.lookup attr = none → getattr node attr = .ok d) ∧
    (node.schema.lookup "type" = none → getattr node "type" = .ok (.str "object")) ∧
    (node.schema.lookup "required" = none → getattr node "required" = .ok (.arr [])) ∧
    (node.schema.lookup "additionalProperties" = none →
      getattr node "additionalProperties" = .ok (.bool true)) ∧
    (∀ attr, attr ∉ recognizedAttrs →
      getattr node attr =
        .error ("JSONSchemaTraitlets object has no attribute " ++ attr)) := by
  refine ⟨?_, ?_, ?_, ?_, ?_, ?_⟩
  · intro attr v hmem hv
    obtain ⟨d, hd⟩ := recognized_has_default attr hmem
    simp [getattr, hd, hv]
  · intro attr d _ hd hnone
    simp [getattr, hd, hnone]
  · intro h
    show Except.ok ((node.schema.lookup "type").getD (.str "object")) = _
    rw [h]
    rfl
  · intro h
    show Except.ok ((node.schema.lookup "required").getD (.arr [])) = _
    rw [h]
    rfl
  · intro h
    show Except.ok ((node.schema.lookup "additionalProperties").getD (.bool true)) = _
    rw [h]
    rfl
  · intro attr h
    have hnone : attr_defaults.lookup attr = none := by
      refine lookup_eq_none_of_ne_keys _ _ (fun p hp => ?_)
      fin_cases hp <;>
        · intro hc
          exact h (by rw [hc]; decide)
    simp [getattr, hnone]

/-- C7, witness: a present keyword returns its value, an absent recognized
keyword returns its default, and an unrecognized attribute errors. -/
theorem C7_getattr_allowlist_witness :
    getattr c7Node "type" = .ok (.str "string") ∧
    getattr c7Node "required" = .ok (.arr []) ∧
    getattr c7Node "frobnicate" =
      .error ("JSONSchemaTraitlets object has no attribute " ++ "frobnicate") :=
  ⟨(C7_getattr_allowlist c7Node).1 "type" (.str "string") (by decide) rfl,
   (C7_getattr_allowlist c7Node).2.2.2.1 rfl,
   (C7_getattr_allowlist c7Node).2.2.2.2.2 "frobnicate" (by decide)⟩

/-- C8, counterexample: with definitions `Foo` and `foo` differing only by
casing, `wrapped_definitions` holds a single entry under the shared
lower-cased key, wrapping the `foo` definition; its classname is the
regularized `foo` (shown for the identity regularization, standing in for
`utils.regularize_name`, which is outside this file's source), not the
regularized `Foo` — so no entry for `Foo` satisfies the claimed
round-trip. -/
theorem C8_counterexample_case_collision :
    ("Foo", JSONValue.obj [("enum", .arr [.num 1])]) ∈ schemaobjDefinitions c8Root ∧
    wrapped_definitions c8Root =
      [("foo", ⟨.obj [("enum", .arr [.num 2])], c8Doc, some "foo", false⟩)] ∧
    classname (fun s => s) "Root" 1
      ⟨.obj [("enum", .arr [.num 2])], c8Doc, some "foo", false⟩ = .ok "foo" ∧
    "foo" ≠ "Foo" := by
  refine ⟨by decide, by decide, by decide, by decide⟩

/-- C8, amended: provided no two definition names share the same
lower-cased form, every definition name D yields an entry of
`wrapped_definitions` keyed by the lower-cased D, wrapping that definition
as a child named D whose classname is the regularized D (for any
regularization and root-name configuration), and the enumeration order is
the sorted order of the original names mapped to their lower-cased keys. -/
theorem C8_round_trip_naming (reg : String → String) (rootName : String)
    (fuel : Nat) (node : SchemaNode)
    (hinj : ((schemaobjDefinitions node).map (fun p => lowerName p.1)).Nodup) :
    (wrapped_definitions node).map Prod.fst =
      (all_definitions node).map (fun p => lowerName p.1) ∧
    ∀ D s, (D, s) ∈ schemaobjDefinitions node → D ≠ "" →
      (wrapped_definitions node).lookup (lowerName D) =
        some (initialize_child node s (some D)) ∧
      classname reg rootName (fuel + 1) (initialize_child node s (some D)) =
        .ok (reg D) := by
  have hsorts : sortByKey (all_definitions node) = all_definitions node :=
    sortByKey_idem _
  have hperm : List.Perm (all_definitions node) (schemaobjDefinitions node) :=
    sortByKey_perm _
  have hkeysnodup :
      (((all_definitions node).map
        (fun p => (lowerName p.1, initialize_child node p.2 (some p.1)))).map
          Prod.fst).Nodup := by
    have hmapnd : ((all_definitions node).map (fun p => lowerName p.1)).Nodup :=
      (hperm.map (fun p => lowerName p.1)).nodup_iff.mpr hinj
    simpa [List.map_map, Function.comp] using hmapnd
  have hwd : wrapped_definitions node =
      (all_definitions node).map
        (fun p => (lowerName p.1, initialize_child node p.2 (some p.1))) := by
    rw [wrapped_definitions, hsorts]
    exact odOfList_eq_self _ hkeysnodup
  constructor
  · rw [hwd]
    simp [List.map_map, Function.comp]
  · intro D s hmem hD
    have hmem2 : (D, s) ∈ all_definitions node := hperm.mem_iff.mpr hmem
    have hmem3 : (lowerName D, initialize_child node s (some D)) ∈
        (all_definitions node).map
          (fun p => (lowerName p.1, initialize_child node p.2 (some p.1))) :=
      List.mem_map_of_mem _ hmem2
    refine ⟨?_, classname_of_name reg rootName fuel s node.rootSchema D hD⟩
    rw [hwd]
    exact lookup_of_mem_nodupKeys _ _ _ hkeysnodup hmem3

/-- C8, witness: the single definition `Color` is keyed by `color` and its
wrapped node's classname is the regularized `Color`. -/
theorem C8_round_trip_naming_witness :
    (wrapped_definitions c8wRoot).lookup (lowerName "Color") =
      some (initialize_child c8wRoot
        (.obj [("enum", .arr [.str "red", .str "green"])]) (some "Color")) ∧
    classname (fun s => s) "Root" 1
      (initialize_child c8wRoot
        (.obj [("enum", .arr [.str "red", .str "green"])]) (some "Color")) =
      .ok "Color" :=
  (C8_round_trip_naming (fun s => s) "Root" 0 c8wRoot (by decide)).2 "Color"
    (.obj [("enum", .arr [.str "red", .str "green"])]) (by decide) (by decide)

/-- C9: whenever `object_imports` succeeds, the returned list has no
duplicates, is sorted in reverse (descending) lexical order, and holds
exactly the union of the fixed base imports, the trait imports of a
schema-valued `additionalProperties` child, the resolved reference
target's import statement when the node is a reference, and every wrapped
property's trait imports. -/
theorem C9_object_imports_sorted_dedup (ti : SchemaNode → List String)
    (ist : SchemaNode → String) (rmap : String → String) (node : SchemaNode)
    (l : List String) (h : object_imports ti ist rmap node = .ok l) :
    l.Nodup ∧ l.Sorted (fun a b : String => strLeB b a = true) ∧
    ∃ refs props, refImports ist node = .ok refs ∧
      wrapped_properties rmap node = .ok props ∧
      ∀ x, x ∈ l ↔ (x ∈ basic_imports ∨ x ∈ apTraitImports ti node ∨
        x ∈ refs ∨ x ∈ propTraitImports ti props) := by
  rw [object_imports] at h
  cases hr : refImports ist node with
  | error e => rw [hr] at h; cases h
  | ok refs =>
    rw [hr] at h
    cases hp : wrapped_properties rmap node with
    | error e => rw [hp] at h; cases h
    | ok props =>
      rw [hp] at h
      cases h
      refine ⟨sortDescDedup_nodup _, sortDescDedup_sorted _, refs, props, rfl, rfl, ?_⟩
      intro x
      rw [mem_sortDescDedup]
      simp [List.mem_append, or_assoc]

/-- C9, witness: with two properties contributing the same two imports, the
computed import list is the deduplicated, reverse-sorted union. -/
theorem C9_object_imports_witness :
    (["import traitlets as T", "import b", "import a",
      "from . import jstraitlets as jst"] : List String).Nodup ∧
    (["import traitlets as T", "import b", "import a",
      "from . import jstraitlets as jst"] : List String).Sorted
        (fun a b : String => strLeB b a = true) := by
  have h := C9_object_imports_sorted_dedup ti9 ist9 id c9Root
    ["import traitlets as T", "import b", "import a",
     "from . import jstraitlets as jst"] (by decide)
  exact ⟨h.1, h.2.1⟩

/-- C10: when a schema has exactly two definitions whose names differ only
by letter casing, `wrapped_definitions` keys both by the shared lower-cased
string and keeps a single entry: the wrapper of the definition whose
original name sorts last; the result therefore has strictly fewer entries
than the definitions mapping. -/
theorem C10_case_collision_overwrites (node : SchemaNode) (n1 n2 : String)
    (s1 s2 : JSONValue)
    (hdefs : schemaobjDefinitions node = [(n1, s1), (n2, s2)])
    (_hne : n1 ≠ n2) (hle : strLeB n1 n2 = true)
    (hlower : lowerName n1 = lowerName n2) :
    wrapped_definitions node =
      [(lowerName n2, initialize_child node s2 (some n2))] ∧
    (wrapped_definitions node).length < (schemaobjDefinitions node).length := by
  have hsort : sortByKey [(n1, s1), (n2, s2)] = [(n1, s1), (n2, s2)] := by
    simp [sortByKey, List.insertionSort, List.orderedInsert, hle]
  have hw : wrapped_definitions node =
      [(lowerName n2, initialize_child node s2 (some n2))] := by
    simp only [wrapped_definitions, all_definitions, hdefs, hsort]
    simp only [List.map, hlower]
    simp [odOfList, odInsert]
  exact ⟨hw, by rw [hw, hdefs]; simp⟩

/-- C10, witness: definitions `Foo` and `foo` collapse to the single entry
keyed `foo` wrapping the `foo` definition. -/
theorem C10_case_collision_overwrites_witness :
    wrapped_definitions c10Root =
      [(lowerName "foo", initialize_child c10Root
        (.obj [("type", .str "number")]) (some "foo"))] ∧
    (wrapped_definitions c10Root).length < (schemaobjDefinitions c10Root).length :=
  C10_case_collision_overwrites c10Root "Foo" "foo"
    (.obj [("type", .str "string")]) (.obj [("type", .str "number")])
    (by decide) (by decide) (by decide) (by decide)

end Schemapi
